import Mathlib

/-!
Verification of the transaction relay of the `breaksomnia` repository.

The relay drains a persisted `transaction_queue` table (Supabase) and submits
each pending item as a ledger write (`recordReaction` / `recordExplosion`),
marking the item `sent` (with the transaction hash) or `failed`.

This file shallowly embeds:
* the store operations of `src/app/action.ts` and `src/unnamed/part_001`
  (`addToTransactionQueue`, `getNextPendingTransaction`,
  `updateTransactionStatus`, `cleanupOldTransactions`);
* the single-wallet tick `TransactionProcessor.processTxQueue` of
  `src/utils/TransactionProcessor.ts` (second class in the file, lines
  248-330);
* the multi-wallet tick `MultiWalletProcessor.processWithWallet` and
  `resetWallet` of the same file;
* the cron entry point `processTransactionQueue` / `GET` of
  `src/unnamed/part_000`;
* the retrying score submitter `processTransaction` of
  `src/utils/transactionProcessor.ts` (lowercase file, ethers/snake variant).

The store is a list of rows; Supabase round-trips are modelled as pure
state transformers; the ledger (simulate / writeContract) is an oracle
passed in as a pair of functions returning `Except`.
-/

namespace Breaksomnia

/-- The `status` column of `transaction_queue`: `'pending' | 'sent' | 'failed'`. -/
inductive TxStatus where
  | pending
  | sent
  | failed
deriving DecidableEq, Repr

/-- A row of the `transaction_queue` table, per the `TransactionQueueItem`
types in `src/app/action.ts` and `src/unnamed/part_001` and the store schema:
`id, atom_id (nullable), x, y, energy, status, hash (nullable), timestamp,
retries, type (nullable)`. -/
structure TransactionQueueItem where
  id : Nat
  atom_id : Option String
  x : Int
  y : Int
  energy : Int
  status : TxStatus
  hash : Option String
  timestamp : Int
  retries : Nat
  txType : Option String
deriving DecidableEq, Repr

/-- The persisted `transaction_queue` table. -/
abbrev Store := List TransactionQueueItem

/-- The SQL query of `getNextPendingTransaction`:
`select * where status = 'pending' order by timestamp ascending limit 1`.
Returns the first row (in table order) among the pending rows of minimal
timestamp, or `none` when no row is pending. -/
def selectOldestPending : List TransactionQueueItem → Option TransactionQueueItem
  | [] => none
  | i :: rest =>
    match selectOldestPending rest with
    | none => if i.status = TxStatus.pending then some i else none
    | some j =>
      if i.status = TxStatus.pending then
        if i.timestamp ≤ j.timestamp then some i else some j
      else some j

/-- Result shape of `getNextPendingTransaction` in `src/app/action.ts`:
`{ transaction: TransactionQueueItem | null; error?: string }`. -/
structure FetchResult where
  transaction : Option TransactionQueueItem
  error : Option String
deriving DecidableEq, Repr

/-- `getNextPendingTransaction` (`src/app/action.ts` lines 106-125,
`src/unnamed/part_001` lines 59-81): runs the select above and returns
`{ transaction: data || null }`; the empty-queue case (PGRST116) is caught
and returned as `{ transaction: null }` with no error.  A SELECT does not
modify the table, so the returned store is the input store. -/
def getNextPendingTransaction (q : Store) : FetchResult × Store :=
  ({ transaction := selectOldestPending q, error := none }, q)

/-- One row's update under `updateTransactionStatus`: the Supabase
`update({ status, hash, retries: (currentTx?.retries || 0) + 1 })`.
When the `hash` argument is `undefined` the key is dropped from the JSON
body, so the column keeps its value; otherwise it is overwritten. -/
def applyStatusUpdate (status : TxStatus) (hash : Option String)
    (i : TransactionQueueItem) : TransactionQueueItem :=
  { i with
    status := status
    hash := match hash with
      | some h => some h
      | none => i.hash
    retries := i.retries + 1 }

/-- `updateTransactionStatus(id, status, hash?)` (`src/app/action.ts` lines
130-158, `src/unnamed/part_000` lines 114-142): updates every row whose `id`
matches — the filter is `.eq('id', id)` alone, with no condition on the
current status. -/
def updateTransactionStatus (q : Store) (id : Nat) (status : TxStatus)
    (hash : Option String) : Store :=
  List.map (fun i => if i.id = id then applyStatusUpdate status hash i else i) q

/-- The serial primary key the store assigns on insert: one more than the
largest id in the table. -/
def freshId (q : Store) : Nat :=
  List.foldl (fun m i => max m i.id) 0 q + 1

/-- `addToTransactionQueue` (`src/app/action.ts` lines 76-101): inserts a row
with `status: 'pending'`, `timestamp: Date.now()`, `retries: 0`, and
`type: cellData.type || 'reaction'`; no `hash` and no `atom_id` are set. -/
def addToTransactionQueue (q : Store) (x y energy : Int)
    (cellType : Option String) (now : Int) : Store :=
  q ++
    [{ id := freshId q
       atom_id := none
       x := x, y := y, energy := energy
       status := TxStatus.pending
       hash := none
       timestamp := now
       retries := 0
       txType := some (cellType.getD "reaction") }]

/-- `cleanupOldTransactions` (`src/unnamed/part_001` lines 222-237, and with
`ageInHours` fixed to 1 in `src/app/action.ts` lines 163-179 and
`src/unnamed/part_000` lines 221-236): deletes every row with
`timestamp < now - ageInHours*3600000 AND status != 'pending'`. -/
def cleanupOldTransactions (q : Store) (now : Int) (ageInHours : Int) : Store :=
  List.filter
    (fun i => !(decide (i.timestamp < now - ageInHours * 3600000) &&
                decide (i.status ≠ TxStatus.pending))) q

/-! ### Ledger client and relay ticks -/

/-- A prepared contract call, identified by its function name and arguments.
`recordReaction(_x, _y, _energy, _atomId)` and `recordExplosion(_atomId)`
follow the ABI in `src/unnamed/part_000`; the second `TransactionProcessor`
class in `src/utils/TransactionProcessor.ts` invokes them without the
`_atomId` argument (explosion: `args: []`, reaction: `args: [x, y, energy]`),
which the two extra constructors record. -/
inductive LedgerCall where
  | recordExplosion (atomId : String)
  | recordReaction (x y energy : Int) (atomId : String)
  | recordExplosionNoId
  | recordReactionNoId (x y energy : Int)
deriving DecidableEq, Repr

/-- The ledger client: `publicClient.simulateContract` produces a prepared
request (or raises), `walletClient.writeContract` broadcasts it and returns
the transaction hash (or raises).  Failures are modelled as `Except`. -/
structure Ledger where
  simulate : LedgerCall → Except String LedgerCall
  submit : LedgerCall → Except String String

/-- The `type` comparison constant: `txTypeExplosion` defaults to
`'explosion'` in both processor classes and in `src/unnamed/part_000`. -/
def txTypeExplosion : String := "explosion"

/-- The `kind` branch shared by `MultiWalletProcessor.processWithWallet`
(`src/utils/TransactionProcessor.ts` lines 508-534), the first
`TransactionProcessor.processTxQueue` (lines 110-140) and the cron loop
(`src/unnamed/part_000` lines 166-198): `tx.type === txTypeExplosion`
selects `recordExplosion(atomId)`, every other value (including an absent
`type`) selects `recordReaction(x, y, energy, atomId)`, with
`atomId = tx.atom_id || ''`. -/
def callForTx (tx : TransactionQueueItem) : LedgerCall :=
  if tx.txType = some txTypeExplosion then
    LedgerCall.recordExplosion (tx.atom_id.getD "")
  else
    LedgerCall.recordReaction tx.x tx.y tx.energy (tx.atom_id.getD "")

/-- The same branch in the second `TransactionProcessor` class
(`src/utils/TransactionProcessor.ts` lines 276-304), which passes no
`atomId`. -/
def callForTxNoId (tx : TransactionQueueItem) : LedgerCall :=
  if tx.txType = some txTypeExplosion then
    LedgerCall.recordExplosionNoId
  else
    LedgerCall.recordReactionNoId tx.x tx.y tx.energy

/-- Store/ledger round-trips a tick performs, recorded for observability;
`dequeue` carries the row the query returned (or `none`). -/
inductive StoreAction where
  | dequeue (fetched : Option TransactionQueueItem)
  | simulateCall (c : LedgerCall)
  | submitCall (c : LedgerCall)
  | mark (id : Nat) (status : TxStatus) (hash : Option String)
deriving DecidableEq, Repr

/-- Events delivered through the `onSuccess` / `onError` callbacks of the
single-wallet processor: `onSuccess({hash, transaction})`,
`onError(err, transaction)`. -/
inductive RelayEvent where
  | success (hash : String) (tx : TransactionQueueItem)
  | failure (err : String) (tx : TransactionQueueItem)
deriving DecidableEq, Repr

/-- Outcome of a single-wallet tick: the store after the tick, the callback
events emitted, and the round-trips performed. -/
structure TickResult where
  store : Store
  events : List RelayEvent
  actions : List StoreAction
deriving DecidableEq

/-- `TransactionProcessor.processTxQueue` (second class in
`src/utils/TransactionProcessor.ts`, lines 248-330): skip when paused;
dequeue; if the result has an error or no row (or a row with falsy `id`)
the tick ends; otherwise simulate and submit the call for the row's type,
then on success `updateTransactionStatus(id, 'sent', hash)` and
`onSuccess({hash, transaction})`, and on any exception from
simulate/submit `updateTransactionStatus(id, 'failed')` and
`onError(err, transaction)`.  The surrounding `try/catch/finally` means the
tick itself always returns normally. -/
def processTxQueue (L : Ledger) (isPaused : Bool) (q : Store) : TickResult :=
  if isPaused then
    { store := q, events := [], actions := [] }
  else
    let fetched := getNextPendingTransaction q
    match fetched.1.transaction with
    | none => { store := fetched.2, events := [], actions := [StoreAction.dequeue none] }
    | some tx =>
      if tx.id = 0 then
        { store := fetched.2, events := [], actions := [StoreAction.dequeue (some tx)] }
      else
        let call := callForTxNoId tx
        match L.simulate call with
        | Except.error e =>
          { store := updateTransactionStatus fetched.2 tx.id TxStatus.failed none
            events := [RelayEvent.failure e tx]
            actions := [StoreAction.dequeue (some tx), StoreAction.simulateCall call,
                        StoreAction.mark tx.id TxStatus.failed none] }
        | Except.ok req =>
          match L.submit req with
          | Except.error e =>
            { store := updateTransactionStatus fetched.2 tx.id TxStatus.failed none
              events := [RelayEvent.failure e tx]
              actions := [StoreAction.dequeue (some tx), StoreAction.simulateCall call,
                          StoreAction.submitCall req,
                          StoreAction.mark tx.id TxStatus.failed none] }
          | Except.ok h =>
            { store := updateTransactionStatus fetched.2 tx.id TxStatus.sent (some h)
              events := [RelayEvent.success h tx]
              actions := [StoreAction.dequeue (some tx), StoreAction.simulateCall call,
                          StoreAction.submitCall req,
                          StoreAction.mark tx.id TxStatus.sent (some h)] }

/-- Per-wallet runtime state of the multi-wallet pool
(`WalletStatus` in `src/utils/TransactionProcessor.ts`). -/
structure WalletStatus where
  index : Nat
  isProcessing : Bool
  totalProcessed : Nat
  consecutiveErrors : Nat
deriving DecidableEq, Repr

/-- `maxConsecutiveErrors` of `MultiWalletProcessor`: 5. -/
def maxConsecutiveErrors : Nat := 5

/-- Events delivered through the multi-wallet callbacks, tagged with the
wallet index. -/
inductive PoolEvent where
  | success (hash : String) (tx : TransactionQueueItem) (walletIndex : Nat)
  | failure (err : String) (tx : TransactionQueueItem) (walletIndex : Nat)
deriving DecidableEq, Repr

/-- Outcome of one `processWithWallet` tick. -/
structure WalletTickResult where
  store : Store
  wallet : WalletStatus
  events : List PoolEvent
  actions : List StoreAction
deriving DecidableEq

/-- `MultiWalletProcessor.processWithWallet(walletIndex)`
(`src/utils/TransactionProcessor.ts` lines 477-571): return immediately when
the pool is paused, the wallet client is missing, the wallet is already
processing, or its `consecutiveErrors` has reached `maxConsecutiveErrors`;
otherwise dequeue (ending cleanly on error/none/falsy id), simulate and
submit `callForTx tx`; on success mark `sent`, increment `totalProcessed`,
zero `consecutiveErrors` and emit the success event; on failure mark
`failed`, increment `consecutiveErrors` and emit the error event.  The
`finally` block clears `isProcessing` in every completed tick. -/
def processWithWallet (L : Ledger) (isPaused : Bool) (hasWalletClient : Bool)
    (ws : WalletStatus) (q : Store) : WalletTickResult :=
  if isPaused ∨ ¬hasWalletClient ∨ ws.isProcessing = true ∨
      maxConsecutiveErrors ≤ ws.consecutiveErrors then
    { store := q, wallet := ws, events := [], actions := [] }
  else
    let fetched := getNextPendingTransaction q
    match fetched.1.transaction with
    | none =>
      { store := fetched.2, wallet := { ws with isProcessing := false }
        events := [], actions := [StoreAction.dequeue none] }
    | some tx =>
      if tx.id = 0 then
        { store := fetched.2, wallet := { ws with isProcessing := false }
          events := [], actions := [StoreAction.dequeue (some tx)] }
      else
        let call := callForTx tx
        match L.simulate call with
        | Except.error e =>
          { store := updateTransactionStatus fetched.2 tx.id TxStatus.failed none
            wallet := { ws with
              isProcessing := false
              consecutiveErrors := ws.consecutiveErrors + 1 }
            events := [PoolEvent.failure e tx ws.index]
            actions := [StoreAction.dequeue (some tx), StoreAction.simulateCall call,
                        StoreAction.mark tx.id TxStatus.failed none] }
        | Except.ok req =>
          match L.submit req with
          | Except.error e =>
            { store := updateTransactionStatus fetched.2 tx.id TxStatus.failed none
              wallet := { ws with
                isProcessing := false
                consecutiveErrors := ws.consecutiveErrors + 1 }
              events := [PoolEvent.failure e tx ws.index]
              actions := [StoreAction.dequeue (some tx), StoreAction.simulateCall call,
                          StoreAction.submitCall req,
                          StoreAction.mark tx.id TxStatus.failed none] }
          | Except.ok h =>
            { store := updateTransactionStatus fetched.2 tx.id TxStatus.sent (some h)
              wallet := { ws with
                isProcessing := false
                totalProcessed := ws.totalProcessed + 1
                consecutiveErrors := 0 }
              events := [PoolEvent.success h tx ws.index]
              actions := [StoreAction.dequeue (some tx), StoreAction.simulateCall call,
                          StoreAction.submitCall req,
                          StoreAction.mark tx.id TxStatus.sent (some h)] }

/-- `MultiWalletProcessor.resetWallet(index)` (lines 470-474): if the index
is in range, set that wallet's `consecutiveErrors` to 0 (positionally). -/
def resetWallet : List WalletStatus → Nat → List WalletStatus
  | [], _ => []
  | w :: ws, 0 => { w with consecutiveErrors := 0 } :: ws
  | w :: ws, Nat.succ n => w :: resetWallet ws n

/-! ### Cron entry point (`src/unnamed/part_000`) -/

/-- Result of the cron drain loop: `processedCount`, the store after the
loop, and the actions performed. -/
structure CronLoopResult where
  processedCount : Nat
  store : Store
  actions : List StoreAction
deriving DecidableEq

/-- The `for (let i = 0; i < MAX_TRANSACTIONS; i++)` loop of
`processTransactionQueue` (`src/unnamed/part_000` lines 152-210), with the
remaining iteration budget as fuel: dequeue the oldest pending row, break
when there is none, otherwise simulate and submit its call; on success mark
`sent` and increment `processedCount`, on any exception mark `failed`
without incrementing. -/
def processQueueLoop (L : Ledger) : Nat → Store → CronLoopResult
  | 0, q => { processedCount := 0, store := q, actions := [] }
  | Nat.succ fuel, q =>
    match selectOldestPending q with
    | none => { processedCount := 0, store := q, actions := [StoreAction.dequeue none] }
    | some tx =>
      let call := callForTx tx
      match L.simulate call with
      | Except.error _ =>
        let r := processQueueLoop L fuel
          (updateTransactionStatus q tx.id TxStatus.failed none)
        { processedCount := r.processedCount
          store := r.store
          actions := StoreAction.dequeue (some tx) :: StoreAction.simulateCall call ::
            StoreAction.mark tx.id TxStatus.failed none :: r.actions }
      | Except.ok req =>
        match L.submit req with
        | Except.error _ =>
          let r := processQueueLoop L fuel
            (updateTransactionStatus q tx.id TxStatus.failed none)
          { processedCount := r.processedCount
            store := r.store
            actions := StoreAction.dequeue (some tx) :: StoreAction.simulateCall call ::
              StoreAction.submitCall req ::
              StoreAction.mark tx.id TxStatus.failed none :: r.actions }
        | Except.ok h =>
          let r := processQueueLoop L fuel
            (updateTransactionStatus q tx.id TxStatus.sent (some h))
          { processedCount := r.processedCount + 1
            store := r.store
            actions := StoreAction.dequeue (some tx) :: StoreAction.simulateCall call ::
              StoreAction.submitCall req ::
              StoreAction.mark tx.id TxStatus.sent (some h) :: r.actions }

/-- `MAX_TRANSACTIONS = 20` (`src/unnamed/part_000` line 153). -/
def MAX_TRANSACTIONS : Nat := 20

/-- `processTransactionQueue` (`src/unnamed/part_000` lines 145-218):
the drain loop with a budget of `MAX_TRANSACTIONS`. -/
def processTransactionQueue (L : Ledger) (q : Store) : CronLoopResult :=
  processQueueLoop L MAX_TRANSACTIONS q

/-- The JSON body returned by the cron handler. -/
structure CronSummary where
  success : Bool
  processedTransactions : Nat
  timestamp : Int
deriving DecidableEq, Repr

/-- The cron handler `GET` (`src/unnamed/part_000` lines 239-263): drain the
queue, then `cleanupOldTransactions` (fixed 1-hour window, lines 221-236),
then respond `{ success: true, processedTransactions, timestamp }`. -/
def GET (L : Ledger) (q : Store) (now : Int) : CronSummary × Store :=
  let r := processTransactionQueue L q
  let swept := cleanupOldTransactions r.store now 1
  ({ success := true, processedTransactions := r.processedCount, timestamp := now },
   swept)

/-! ### The retrying score submitter (`src/utils/transactionProcessor.ts`) -/

/-- `maxRetries = 3` in the lowercase `transactionProcessor.ts`. -/
def snakeMaxRetries : Nat := 3

/-- The `while (attempts < this.maxRetries)` loop of `processTransaction`
(`src/utils/transactionProcessor.ts` lines 123-155), with
`snakeMaxRetries - attempts` as fuel.  `submitAttempt n` is the outcome of
the n-th `contract.updateScore` + `tx.wait()` round-trip.  Returns the final
outcome together with the number of submission attempts made. -/
def processTransactionGo (submitAttempt : Nat → Except String String) :
    Nat → Nat → Except String String × Nat
  | _, 0 => (Except.error "Failed to process transaction after max attempts", 0)
  | attempts, Nat.succ n =>
    match submitAttempt attempts with
    | Except.ok receipt => (Except.ok receipt, 1)
    | Except.error e =>
      if n = 0 then (Except.error e, 1)
      else
        let r := processTransactionGo submitAttempt (attempts + 1) n
        (r.1, r.2 + 1)

/-- `processTransaction(score, txOptions)`: run the retry loop from
`attempts = 0`.  The `score` is part of the submitted call, so retries
re-submit the same work item. -/
def processTransaction (submitScore : Nat → Nat → Except String String)
    (score : Nat) : Except String String × Nat :=
  processTransactionGo (submitScore score) 0 snakeMaxRetries

/-! ### Relay operation traces and invariants -/

/-- One externally triggered relay operation: a producer enqueue
(`addToTransactionQueue`) or one single-wallet tick (`processTxQueue`). -/
inductive RelayOp where
  | enqueue (x y energy : Int) (cellType : Option String) (now : Int)
  | tick (L : Ledger) (isPaused : Bool)

/-- Apply one relay operation to the store. -/
def applyRelayOp (q : Store) : RelayOp → Store
  | RelayOp.enqueue x y energy cellType now =>
    addToTransactionQueue q x y energy cellType now
  | RelayOp.tick L isPaused => (processTxQueue L isPaused q).store

/-- The store reached from an empty table by a sequence of relay
operations. -/
def runRelayOps (ops : List RelayOp) : Store :=
  List.foldl applyRelayOp [] ops

/-- The table's primary-key uniqueness: all ids distinct. -/
def idsNodup (q : Store) : Prop :=
  (List.map (fun i => i.id) q).Nodup

/-- The hash/status invariant: a row carries a hash exactly when it is
`sent`. -/
def hashInv (q : Store) : Prop :=
  ∀ i ∈ q, (i.hash ≠ none ↔ i.status = TxStatus.sent)

/-- Both table invariants together. -/
def QueueInv (q : Store) : Prop :=
  idsNodup q ∧ hashInv q

/-- The rows a trace dequeued, in order. -/
def dequeuedItems : List StoreAction → List TransactionQueueItem
  | [] => []
  | StoreAction.dequeue (some tx) :: rest => tx :: dequeuedItems rest
  | _ :: rest => dequeuedItems rest

/-- Whether an action is a `writeContract` broadcast. -/
def isSubmitCall : StoreAction → Bool
  | StoreAction.submitCall _ => true
  | _ => false

/-- Number of `writeContract` broadcasts in a trace. -/
def submitCount (as : List StoreAction) : Nat :=
  (List.filter isSubmitCall as).length

/-- Whether an action marks a row `sent`. -/
def isSentMark : StoreAction → Bool
  | StoreAction.mark _ TxStatus.sent _ => true
  | _ => false

/-- Number of `sent` marks in a trace. -/
def sentMarkCount (as : List StoreAction) : Nat :=
  (List.filter isSentMark as).length

/-- The environment one wallet tick runs against. -/
structure TickEnv where
  ledger : Ledger
  isPaused : Bool
  hasWalletClient : Bool
  store : Store

/-- A wallet's state after a sequence of its own ticks. -/
def runWalletTicks (ws : WalletStatus) (envs : List TickEnv) : WalletStatus :=
  List.foldl
    (fun w e => (processWithWallet e.ledger e.isPaused e.hasWalletClient w e.store).wallet)
    ws envs

/-- A ledger on which simulation and submission always succeed, with hash
`0xabc`. -/
def ledgerOk : Ledger :=
  { simulate := fun c => Except.ok c
    submit := fun _ => Except.ok "0xabc" }

/-- A ledger whose broadcast always raises. -/
def ledgerSubmitFail : Ledger :=
  { simulate := fun c => Except.ok c
    submit := fun _ => Except.error "SubmissionError" }

/-- A sample pending reaction row. -/
def samplePending : TransactionQueueItem :=
  { id := 1, atom_id := some "atom-1", x := 10, y := 20, energy := 1
    status := TxStatus.pending, hash := none, timestamp := 1000
    retries := 0, txType := some "reaction" }

/-- A sample row already marked sent. -/
def sampleSent : TransactionQueueItem :=
  { id := 1, atom_id := none, x := 0, y := 0, energy := 0
    status := TxStatus.sent, hash := some "0xabc", timestamp := 1000
    retries := 1, txType := some "reaction" }

/-- A sample wallet state. -/
def sampleWallet : WalletStatus :=
  { index := 0, isProcessing := false, totalProcessed := 0, consecutiveErrors := 0 }

/-- A sample pending explosion row with no `atom_id`. -/
def sampleExplosion : TransactionQueueItem :=
  { id := 2, atom_id := none, x := 0, y := 0, energy := 0
    status := TxStatus.pending, hash := none, timestamp := 2000
    retries := 0, txType := some "explosion" }

/-- A ledger whose simulation always raises. -/
def ledgerSimFail : Ledger :=
  { simulate := fun _ => Except.error "SimulationError"
    submit := fun _ => Except.ok "0xabc" }

/-! ### Properties of the dequeue query -/

theorem selectOldestPending_mem {q : List TransactionQueueItem}
    {tx : TransactionQueueItem} (h : selectOldestPending q = some tx) :
    tx ∈ q := by
  induction q generalizing tx with
  | nil => simp [selectOldestPending] at h
  | cons i rest ih =>
    simp only [selectOldestPending] at h
    cases hrest : selectOldestPending rest with
    | none =>
      rw [hrest] at h
      by_cases hp : i.status = TxStatus.pending
      · simp [hp] at h; simp [← h]
      · simp [hp] at h
    | some j =>
      rw [hrest] at h
      by_cases hp : i.status = TxStatus.pending
      · simp only [hp, if_true] at h
        by_cases ht : i.timestamp ≤ j.timestamp
        · simp [ht] at h; simp [← h]
        · simp [ht] at h
          exact List.mem_cons_of_mem _ (h ▸ ih hrest)
      · simp [hp] at h
        exact List.mem_cons_of_mem _ (h ▸ ih hrest)

theorem selectOldestPending_pending {q : List TransactionQueueItem}
    {tx : TransactionQueueItem} (h : selectOldestPending q = some tx) :
    tx.status = TxStatus.pending := by
  induction q generalizing tx with
  | nil => simp [selectOldestPending] at h
  | cons i rest ih =>
    simp only [selectOldestPending] at h
    cases hrest : selectOldestPending rest with
    | none =>
      rw [hrest] at h
      by_cases hp : i.status = TxStatus.pending
      · simp [hp] at h; rw [← h]; exact hp
      · simp [hp] at h
    | some j =>
      rw [hrest] at h
      by_cases hp : i.status = TxStatus.pending
      · simp only [hp, if_true] at h
        by_cases ht : i.timestamp ≤ j.timestamp
        · simp [ht] at h; rw [← h]; exact hp
        · simp [ht] at h; rw [← h]; exact ih hrest
      · simp [hp] at h; rw [← h]; exact ih hrest

theorem selectOldestPending_none {q : List TransactionQueueItem}
    (h : selectOldestPending q = none) :
    ∀ j ∈ q, j.status ≠ TxStatus.pending := by
  induction q with
  | nil => intro j hj; simp at hj
  | cons i rest ih =>
    intro j hj
    simp only [selectOldestPending] at h
    cases hrest : selectOldestPending rest with
    | none =>
      rw [hrest] at h
      by_cases hp : i.status = TxStatus.pending
      · simp [hp] at h
      · rcases List.mem_cons.mp hj with hji | hjr
        · rw [hji]; exact hp
        · exact ih hrest j hjr
    | some b =>
      rw [hrest] at h
      by_cases hp : i.status = TxStatus.pending
      · simp only [hp, if_true] at h
        split at h <;> simp_all
      · simp [hp] at h

theorem selectOldestPending_minimal {q : List TransactionQueueItem}
    {tx : TransactionQueueItem} (h : selectOldestPending q = some tx) :
    ∀ j ∈ q, j.status = TxStatus.pending → tx.timestamp ≤ j.timestamp := by
  induction q generalizing tx with
  | nil => simp [selectOldestPending] at h
  | cons i rest ih =>
    intro j hj hjp
    simp only [selectOldestPending] at h
    cases hrest : selectOldestPending rest with
    | none =>
      rw [hrest] at h
      by_cases hp : i.status = TxStatus.pending
      · simp [hp] at h
        rcases List.mem_cons.mp hj with hji | hjr
        · rw [← h, hji]
        · exact absurd hjp (selectOldestPending_none hrest j hjr)
      · simp [hp] at h
    | some b =>
      rw [hrest] at h
      by_cases hp : i.status = TxStatus.pending
      · simp only [hp, if_true] at h
        by_cases ht : i.timestamp ≤ b.timestamp
        · simp [ht] at h
          rcases List.mem_cons.mp hj with hji | hjr
          · rw [← h, hji]
          · calc tx.timestamp = i.timestamp := by rw [← h]
              _ ≤ b.timestamp := ht
              _ ≤ j.timestamp := ih hrest j hjr hjp
        · simp [ht] at h
          rcases List.mem_cons.mp hj with hji | hjr
          · rw [← h, hji]
            exact le_of_lt (lt_of_not_le ht)
          · rw [← h]; exact ih hrest j hjr hjp
      · simp [hp] at h
        rcases List.mem_cons.mp hj with hji | hjr
        · exact absurd (hji ▸ hjp) hp
        · rw [← h]; exact ih hrest j hjr hjp

theorem foldl_max_id_mono (q : List TransactionQueueItem) (acc : Nat) :
    acc ≤ List.foldl (fun m i => max m i.id) acc q := by
  induction q generalizing acc with
  | nil => simp
  | cons a rest ih =>
    simp only [List.foldl_cons]
    exact le_trans (le_max_left acc a.id) (ih (max acc a.id))

theorem mem_le_foldl_max_id {q : List TransactionQueueItem}
    {i : TransactionQueueItem} (h : i ∈ q) (acc : Nat) :
    i.id ≤ List.foldl (fun m j => max m j.id) acc q := by
  induction q generalizing acc with
  | nil => simp at h
  | cons a rest ih =>
    simp only [List.foldl_cons]
    rcases List.mem_cons.mp h with hi | hi
    · exact le_trans (hi ▸ le_max_right acc a.id)
        (foldl_max_id_mono rest (max acc a.id))
    · exact ih hi (max acc a.id)

theorem id_lt_freshId {q : Store} {i : TransactionQueueItem} (h : i ∈ q) :
    i.id < freshId q :=
  Nat.lt_succ_of_le (mem_le_foldl_max_id h 0)

theorem updateTransactionStatus_map_id (q : Store) (id : Nat)
    (status : TxStatus) (hash : Option String) :
    List.map (fun i => i.id) (updateTransactionStatus q id status hash) =
      List.map (fun i => i.id) q := by
  unfold updateTransactionStatus
  rw [List.map_map]
  apply List.map_congr_left
  intro i _
  by_cases hi : i.id = id <;> simp [hi, applyStatusUpdate]

theorem idsNodup_update {q : Store} (h : idsNodup q) (id : Nat)
    (status : TxStatus) (hash : Option String) :
    idsNodup (updateTransactionStatus q id status hash) := by
  unfold idsNodup
  rw [updateTransactionStatus_map_id]
  exact h

theorem idsNodup_enqueue {q : Store} (h : idsNodup q) (x y energy : Int)
    (cellType : Option String) (now : Int) :
    idsNodup (addToTransactionQueue q x y energy cellType now) := by
  unfold idsNodup addToTransactionQueue
  rw [List.map_append]
  rw [List.nodup_append]
  refine ⟨h, List.nodup_singleton _, ?_⟩
  intro n hn hn1
  simp only [List.map_cons, List.map_nil, List.mem_singleton] at hn1
  rcases List.mem_map.mp hn with ⟨i, hiq, hid⟩
  have := id_lt_freshId hiq
  omega

theorem hashInv_update_sent {q : Store} (h : hashInv q) (id : Nat)
    (hsh : String) :
    hashInv (updateTransactionStatus q id TxStatus.sent (some hsh)) := by
  intro i' hi'
  rcases List.mem_map.mp hi' with ⟨i, hiq, hfi⟩
  rw [← hfi]
  by_cases hid : i.id = id
  · simp [hid, applyStatusUpdate]
  · simp only [hid, if_false]
    exact h i hiq

theorem hashInv_update_failed {q : Store} (hn : idsNodup q) (h : hashInv q)
    {tx : TransactionQueueItem} (htx : tx ∈ q)
    (hp : tx.status = TxStatus.pending) :
    hashInv (updateTransactionStatus q tx.id TxStatus.failed none) := by
  intro i' hi'
  rcases List.mem_map.mp hi' with ⟨i, hiq, hfi⟩
  rw [← hfi]
  by_cases hid : i.id = tx.id
  · have hieq : i = tx := List.inj_on_of_nodup_map hn hiq htx hid
    subst hieq
    have hhash : i.hash = none := by
      by_contra hne
      have h2 := (h i hiq).mp hne
      rw [hp] at h2
      exact absurd h2 (by decide)
    simp [hid, applyStatusUpdate, hhash]
  · simp only [hid, if_false]
    exact h i hiq

theorem hashInv_enqueue {q : Store} (h : hashInv q) (x y energy : Int)
    (cellType : Option String) (now : Int) :
    hashInv (addToTransactionQueue q x y energy cellType now) := by
  intro i hi
  unfold addToTransactionQueue at hi
  rcases List.mem_append.mp hi with hiq | hinew
  · exact h i hiq
  · rcases List.mem_singleton.mp hinew with rfl
    simp

theorem queueInv_tick {q : Store} (h : QueueInv q) (L : Ledger) (p : Bool) :
    QueueInv (processTxQueue L p q).store := by
  obtain ⟨hn, hh⟩ := h
  unfold processTxQueue
  cases p with
  | true => exact ⟨hn, hh⟩
  | false =>
    simp only [Bool.false_eq_true, if_false, getNextPendingTransaction]
    cases hsel : selectOldestPending q with
    | none => exact ⟨hn, hh⟩
    | some tx =>
      have htxm := selectOldestPending_mem hsel
      have htxp := selectOldestPending_pending hsel
      by_cases hid : tx.id = 0
      · simp only [hid, if_true]
        exact ⟨hn, hh⟩
      · simp only [hid, if_false]
        cases hsim : L.simulate (callForTxNoId tx) with
        | error e =>
          exact ⟨idsNodup_update hn _ _ _, hashInv_update_failed hn hh htxm htxp⟩
        | ok req =>
          cases hsub : L.submit req with
          | error e =>
            dsimp only
            rw [hsub]
            exact ⟨idsNodup_update hn _ _ _, hashInv_update_failed hn hh htxm htxp⟩
          | ok hsh =>
            dsimp only
            rw [hsub]
            exact ⟨idsNodup_update hn _ _ _, hashInv_update_sent hh _ _⟩

theorem queueInv_enqueue {q : Store} (h : QueueInv q) (x y energy : Int)
    (cellType : Option String) (now : Int) :
    QueueInv (addToTransactionQueue q x y energy cellType now) :=
  ⟨idsNodup_enqueue h.1 x y energy cellType now,
   hashInv_enqueue h.2 x y energy cellType now⟩

theorem queueInv_applyRelayOp {q : Store} (h : QueueInv q) (op : RelayOp) :
    QueueInv (applyRelayOp q op) := by
  cases op with
  | enqueue x y energy cellType now => exact queueInv_enqueue h x y energy cellType now
  | tick L p => exact queueInv_tick h L p

theorem queueInv_foldl (ops : List RelayOp) :
    ∀ q0 : Store, QueueInv q0 → QueueInv (List.foldl applyRelayOp q0 ops) := by
  induction ops with
  | nil => intro q0 h; exact h
  | cons op rest ih =>
    intro q0 h
    simp only [List.foldl_cons]
    exact ih _ (queueInv_applyRelayOp h op)

theorem queueInv_runRelayOps (ops : List RelayOp) :
    QueueInv (runRelayOps ops) := by
  apply queueInv_foldl
  constructor
  · simp [idsNodup]
  · intro i hi; simp at hi

/-! ### Claim theorems -/

/-- C4: `getNextPendingTransaction` returns the pending row of smallest
timestamp (or none when no row is pending), never mutates the store, and
reports an empty queue as `{ transaction: null }` with no error rather than
a hard error. -/
theorem c4_dequeue_oldest_pending (q : Store) :
    (getNextPendingTransaction q).2 = q ∧
    (getNextPendingTransaction q).1.error = none ∧
    (∀ tx, (getNextPendingTransaction q).1.transaction = some tx →
      tx ∈ q ∧ tx.status = TxStatus.pending ∧
      ∀ j ∈ q, j.status = TxStatus.pending → tx.timestamp ≤ j.timestamp) ∧
    ((getNextPendingTransaction q).1.transaction = none →
      ∀ j ∈ q, j.status ≠ TxStatus.pending) := by
  refine ⟨rfl, rfl, ?_, ?_⟩
  · intro tx htx
    have hsel : selectOldestPending q = some tx := htx
    exact ⟨selectOldestPending_mem hsel, selectOldestPending_pending hsel,
      selectOldestPending_minimal hsel⟩
  · intro hnone
    exact selectOldestPending_none hnone

/-- C4 witness: on a queue holding one pending and one sent row, the dequeue
leaves the store unchanged, reports no error, and hands out the pending
row. -/
theorem c4_dequeue_oldest_pending_witness :
    (getNextPendingTransaction [samplePending, sampleSent]).2 =
      [samplePending, sampleSent] ∧
    (getNextPendingTransaction [samplePending, sampleSent]).1.error = none ∧
    samplePending ∈ [samplePending, sampleSent] ∧
    samplePending.status = TxStatus.pending := by
  obtain ⟨h1, h2, h3, _⟩ := c4_dequeue_oldest_pending [samplePending, sampleSent]
  have h4 := h3 samplePending rfl
  exact ⟨h1, h2, h4.1, h4.2.1⟩

/-- C9: the retention sweep keeps a row exactly when it is pending or not
older than `now - ageInHours * 1h`; a pending row is never deleted
regardless of its age. -/
theorem c9_cleanup_retention (q : Store) (now ageInHours : Int)
    (i : TransactionQueueItem) :
    (i ∈ cleanupOldTransactions q now ageInHours ↔
      i ∈ q ∧
        ¬(i.timestamp < now - ageInHours * 3600000 ∧
          i.status ≠ TxStatus.pending)) ∧
    (i.status = TxStatus.pending →
      (i ∈ cleanupOldTransactions q now ageInHours ↔ i ∈ q)) := by
  have hmain : i ∈ cleanupOldTransactions q now ageInHours ↔
      i ∈ q ∧
        ¬(i.timestamp < now - ageInHours * 3600000 ∧
          i.status ≠ TxStatus.pending) := by
    unfold cleanupOldTransactions
    rw [List.mem_filter]
    constructor
    · rintro ⟨hq, hb⟩
      refine ⟨hq, ?_⟩
      intro ⟨hts, hst⟩
      simp [hts, hst] at hb
    · rintro ⟨hq, hnot⟩
      refine ⟨hq, ?_⟩
      by_cases hts : i.timestamp < now - ageInHours * 3600000
      · by_cases hst : i.status = TxStatus.pending
        · simp [hst]
        · exact absurd ⟨hts, hst⟩ hnot
      · simp [hts]
  refine ⟨hmain, ?_⟩
  intro hp
  rw [hmain]
  constructor
  · exact fun h => h.1
  · intro hq
    refine ⟨hq, ?_⟩
    intro ⟨_, hst⟩
    exact hst hp

/-- C9 witness: with `now = 7200000` (so both rows are 2h old against a 1h
window), the sent row is deleted and the pending row of the same age is
kept. -/
theorem c9_cleanup_retention_witness :
    sampleSent ∉ cleanupOldTransactions [samplePending, sampleSent] 7200000 1 ∧
    samplePending ∈ cleanupOldTransactions [samplePending, sampleSent] 7200000 1 := by
  constructor
  · intro hmem
    have h := (c9_cleanup_retention [samplePending, sampleSent] 7200000 1
      sampleSent).1.mp hmem
    exact absurd h (by decide)
  · exact ((c9_cleanup_retention [samplePending, sampleSent] 7200000 1
      samplePending).2 rfl).mpr (by decide)

/-- C10: the kind branch is binary — a row whose `type` is `'explosion'` is
submitted via `recordExplosion(atomId)` and every other row (missing type
included) via `recordReaction(x, y, energy, atomId)`, with a missing
`atom_id` replaced by the empty string. -/
theorem c10_kind_branch (tx : TransactionQueueItem) :
    (tx.txType = some txTypeExplosion →
      callForTx tx = LedgerCall.recordExplosion (tx.atom_id.getD "")) ∧
    (tx.txType ≠ some txTypeExplosion →
      callForTx tx =
        LedgerCall.recordReaction tx.x tx.y tx.energy (tx.atom_id.getD "")) ∧
    (tx.atom_id = none → tx.txType = some txTypeExplosion →
      callForTx tx = LedgerCall.recordExplosion "") ∧
    (tx.atom_id = none → tx.txType ≠ some txTypeExplosion →
      callForTx tx = LedgerCall.recordReaction tx.x tx.y tx.energy "") := by
  unfold callForTx
  by_cases h : tx.txType = some txTypeExplosion
  · refine ⟨fun _ => by simp [h], fun hc => absurd h hc, ?_, fun ha hc => absurd h hc⟩
    intro ha _
    simp [h, ha]
  · refine ⟨fun hc => absurd hc h, fun _ => by simp [h], fun _ hc => absurd hc h, ?_⟩
    intro ha _
    simp [h, ha]

/-- C10 witness: the explosion row without `atom_id` goes to
`recordExplosion("")`; a row with no `type` at all goes to
`recordReaction` with its coordinates. -/
theorem c10_kind_branch_witness :
    callForTx sampleExplosion = LedgerCall.recordExplosion "" ∧
    callForTx { samplePending with txType := none } =
      LedgerCall.recordReaction 10 20 1 "atom-1" := by
  constructor
  · exact (c10_kind_branch sampleExplosion).2.2.1 rfl rfl
  · exact (c10_kind_branch { samplePending with txType := none }).2.1 (by decide)

/-- C2 counterexample: `updateTransactionStatus` has no guard on the current
status — invoked on a row already `sent`, it flips the status to `failed`,
so the operation is not limited to the transitions pending→sent and
pending→failed. -/
theorem c2_counterexample_sent_row_flipped :
    sampleSent.status = TxStatus.sent ∧
    List.map (fun i => i.status)
      (updateTransactionStatus [sampleSent] 1 TxStatus.failed none) =
      [TxStatus.failed] :=
  ⟨rfl, rfl⟩

/-- C5 counterexample: `processTransaction` of the lowercase
`transactionProcessor.ts` re-submits the same work item in place — against a
persistently failing broadcast it makes exactly 3 submission attempts
(`maxRetries = 3`) inside one processing cycle, so the repository is not
free of in-place retry. -/
theorem c5_counterexample_inplace_retry :
    (processTransaction (fun _ _ => Except.error "SubmissionError") 7).2 = 3 ∧
    1 < (processTransaction (fun _ _ => Except.error "SubmissionError") 7).2 :=
  ⟨rfl, by decide⟩

theorem mem_update_of_id_ne {q : Store} {i : TransactionQueueItem}
    (hi : i ∈ q) {id : Nat} {st : TxStatus} {h : Option String}
    (hne : i.id ≠ id) : i ∈ updateTransactionStatus q id st h := by
  unfold updateTransactionStatus
  exact List.mem_map.mpr ⟨i, hi, by simp [hne]⟩

/-- C1: for a dequeued row — if simulate and submit both succeed, the tick
marks the row `sent` with the returned hash and emits the success callback
with the hash and the original row; if simulate or submit raises, the tick
marks the row `failed` (no hash) and emits the error callback with the error
and the row.  The tick is a total function, so the per-item exception never
escapes it.  Stated for both the single-wallet `processTxQueue` and the
multi-wallet `processWithWallet`. -/
theorem c1_tick_marks_and_callbacks (L : Ledger) (q : Store)
    (tx : TransactionQueueItem) (ws : WalletStatus)
    (hsel : selectOldestPending q = some tx) (hid : tx.id ≠ 0)
    (hproc : ws.isProcessing = false)
    (herr : ws.consecutiveErrors < maxConsecutiveErrors) :
    (∀ req h, L.simulate (callForTxNoId tx) = Except.ok req →
      L.submit req = Except.ok h →
      (processTxQueue L false q).store =
        updateTransactionStatus q tx.id TxStatus.sent (some h) ∧
      (processTxQueue L false q).events = [RelayEvent.success h tx]) ∧
    (∀ e, L.simulate (callForTxNoId tx) = Except.error e →
      (processTxQueue L false q).store =
        updateTransactionStatus q tx.id TxStatus.failed none ∧
      (processTxQueue L false q).events = [RelayEvent.failure e tx]) ∧
    (∀ req e, L.simulate (callForTxNoId tx) = Except.ok req →
      L.submit req = Except.error e →
      (processTxQueue L false q).store =
        updateTransactionStatus q tx.id TxStatus.failed none ∧
      (processTxQueue L false q).events = [RelayEvent.failure e tx]) ∧
    (∀ req h, L.simulate (callForTx tx) = Except.ok req →
      L.submit req = Except.ok h →
      (processWithWallet L false true ws q).store =
        updateTransactionStatus q tx.id TxStatus.sent (some h) ∧
      (processWithWallet L false true ws q).events =
        [PoolEvent.success h tx ws.index]) ∧
    (∀ e, L.simulate (callForTx tx) = Except.error e →
      (processWithWallet L false true ws q).store =
        updateTransactionStatus q tx.id TxStatus.failed none ∧
      (processWithWallet L false true ws q).events =
        [PoolEvent.failure e tx ws.index]) ∧
    (∀ req e, L.simulate (callForTx tx) = Except.ok req →
      L.submit req = Except.error e →
      (processWithWallet L false true ws q).store =
        updateTransactionStatus q tx.id TxStatus.failed none ∧
      (processWithWallet L false true ws q).events =
        [PoolEvent.failure e tx ws.index]) := by
  have hguard : ¬(false = true ∨ ¬(true = true) ∨ ws.isProcessing = true ∨
      maxConsecutiveErrors ≤ ws.consecutiveErrors) := by
    push_neg
    exact ⟨by simp, by simp, by simp [hproc], by omega⟩
  refine ⟨?_, ?_, ?_, ?_, ?_, ?_⟩
  · intro req h hsim hsub
    simp [processTxQueue, getNextPendingTransaction, hsel, hid, hsim, hsub]
  · intro e hsim
    simp [processTxQueue, getNextPendingTransaction, hsel, hid, hsim]
  · intro req e hsim hsub
    simp [processTxQueue, getNextPendingTransaction, hsel, hid, hsim, hsub]
  · intro req h hsim hsub
    unfold processWithWallet
    rw [if_neg hguard]
    simp [getNextPendingTransaction, hsel, hid, hsim, hsub]
  · intro e hsim
    unfold processWithWallet
    rw [if_neg hguard]
    simp [getNextPendingTransaction, hsel, hid, hsim]
  · intro req e hsim hsub
    unfold processWithWallet
    rw [if_neg hguard]
    simp [getNextPendingTransaction, hsel, hid, hsim, hsub]

/-- C1 witness: on the sample queue, the succeeding ledger leads to a `sent`
mark with hash `0xabc` and a success event; the failing ledger leads to a
`failed` mark and an error event. -/
theorem c1_tick_marks_and_callbacks_witness :
    ((processTxQueue ledgerOk false [samplePending]).events =
      [RelayEvent.success "0xabc" samplePending]) ∧
    ((processTxQueue ledgerSubmitFail false [samplePending]).store =
      updateTransactionStatus [samplePending] 1 TxStatus.failed none) ∧
    ((processWithWallet ledgerSubmitFail false true sampleWallet
        [samplePending]).events =
      [PoolEvent.failure "SubmissionError" samplePending 0]) := by
  refine ⟨?_, ?_, ?_⟩
  · exact ((c1_tick_marks_and_callbacks ledgerOk [samplePending] samplePending
      sampleWallet rfl (by decide) rfl (by decide)).1
      (callForTxNoId samplePending) "0xabc" rfl rfl).2
  · exact ((c1_tick_marks_and_callbacks ledgerSubmitFail [samplePending]
      samplePending sampleWallet rfl (by decide) rfl (by decide)).2.2.1
      (callForTxNoId samplePending) "SubmissionError" rfl rfl).1
  · exact ((c1_tick_marks_and_callbacks ledgerSubmitFail [samplePending]
      samplePending sampleWallet rfl (by decide) rfl (by decide)).2.2.2.2.2
      (callForTx samplePending) "SubmissionError" rfl rfl).2

/-- C2 amended: `updateTransactionStatus` itself updates the matching row
unconditionally (see the counterexample), but under serial relay execution a
tick only ever marks the row it just dequeued — which is pending — so, with
distinct ids, a row already `sent` or `failed` survives any single- or
multi-wallet tick unchanged. -/
theorem c2_amended_ticks_preserve_terminal (L : Ledger) (p hw : Bool)
    (ws : WalletStatus) {q : Store} (hn : idsNodup q)
    {i : TransactionQueueItem} (hi : i ∈ q)
    (hs : i.status ≠ TxStatus.pending) :
    i ∈ (processTxQueue L p q).store ∧
    i ∈ (processWithWallet L p hw ws q).store := by
  have key : ∀ tx : TransactionQueueItem,
      selectOldestPending q = some tx → i.id ≠ tx.id := by
    intro tx hsel hideq
    have hieq := List.inj_on_of_nodup_map hn hi (selectOldestPending_mem hsel) hideq
    rw [hieq] at hs
    exact hs (selectOldestPending_pending hsel)
  constructor
  · unfold processTxQueue
    cases p with
    | true => exact hi
    | false =>
      simp only [Bool.false_eq_true, if_false, getNextPendingTransaction]
      cases hsel : selectOldestPending q with
      | none => exact hi
      | some tx =>
        by_cases hid : tx.id = 0
        · simp only [hid, if_true]
          exact hi
        · simp only [hid, if_false]
          cases hsim : L.simulate (callForTxNoId tx) with
          | error e => exact mem_update_of_id_ne hi (key tx hsel)
          | ok req =>
            cases hsub : L.submit req with
            | error e =>
              dsimp only
              rw [hsub]
              exact mem_update_of_id_ne hi (key tx hsel)
            | ok hsh =>
              dsimp only
              rw [hsub]
              exact mem_update_of_id_ne hi (key tx hsel)
  · unfold processWithWallet
    split
    · exact hi
    · simp only [getNextPendingTransaction]
      cases hsel : selectOldestPending q with
      | none => exact hi
      | some tx =>
        by_cases hid : tx.id = 0
        · simp only [hid, if_true]
          exact hi
        · simp only [hid, if_false]
          cases hsim : L.simulate (callForTx tx) with
          | error e => exact mem_update_of_id_ne hi (key tx hsel)
          | ok req =>
            cases hsub : L.submit req with
            | error e =>
              dsimp only
              rw [hsub]
              exact mem_update_of_id_ne hi (key tx hsel)
            | ok hsh =>
              dsimp only
              rw [hsub]
              exact mem_update_of_id_ne hi (key tx hsel)

/-- C2 amended witness: a sent row (id 9) survives a failing single-wallet
tick that marks the pending row (id 1) failed. -/
theorem c2_amended_ticks_preserve_terminal_witness :
    { sampleSent with id := 9 } ∈
      (processTxQueue ledgerSubmitFail false
        [samplePending, { sampleSent with id := 9 }]).store ∧
    { sampleSent with id := 9 } ∈
      (processWithWallet ledgerSubmitFail false true sampleWallet
        [samplePending, { sampleSent with id := 9 }]).store :=
  c2_amended_ticks_preserve_terminal ledgerSubmitFail false true sampleWallet
    (by unfold idsNodup; decide) (by decide) (by decide)

/-- C5 amended: the queue relay proper performs at most one broadcast per
tick — a failed submission is marked `failed` and the same queue row is not
re-submitted within the tick; the in-place retry exists only in the
lowercase score processor (see the counterexample). -/
theorem c5_amended_single_submission_per_tick (L : Ledger) (p hw : Bool)
    (ws : WalletStatus) (q : Store) :
    submitCount (processTxQueue L p q).actions ≤ 1 ∧
    submitCount (processWithWallet L p hw ws q).actions ≤ 1 ∧
    (∀ tx req e, selectOldestPending q = some tx → tx.id ≠ 0 →
      L.simulate (callForTxNoId tx) = Except.ok req →
      L.submit req = Except.error e →
      (processTxQueue L false q).store =
        updateTransactionStatus q tx.id TxStatus.failed none ∧
      submitCount (processTxQueue L false q).actions = 1) := by
  refine ⟨?_, ?_, ?_⟩
  · unfold processTxQueue
    cases p with
    | true => simp [submitCount]
    | false =>
      simp only [Bool.false_eq_true, if_false, getNextPendingTransaction]
      cases hsel : selectOldestPending q with
      | none => simp [submitCount, isSubmitCall]
      | some tx =>
        by_cases hid : tx.id = 0
        · simp [hid, submitCount, isSubmitCall]
        · simp only [hid, if_false]
          cases hsim : L.simulate (callForTxNoId tx) with
          | error e => simp [submitCount, isSubmitCall]
          | ok req =>
            cases hsub : L.submit req with
            | error e =>
              dsimp only
              rw [hsub]
              simp [submitCount, isSubmitCall]
            | ok hsh =>
              dsimp only
              rw [hsub]
              simp [submitCount, isSubmitCall]
  · unfold processWithWallet
    split
    · simp [submitCount]
    · simp only [getNextPendingTransaction]
      cases hsel : selectOldestPending q with
      | none => simp [submitCount, isSubmitCall]
      | some tx =>
        by_cases hid : tx.id = 0
        · simp [hid, submitCount, isSubmitCall]
        · simp only [hid, if_false]
          cases hsim : L.simulate (callForTx tx) with
          | error e => simp [submitCount, isSubmitCall]
          | ok req =>
            cases hsub : L.submit req with
            | error e =>
              dsimp only
              rw [hsub]
              simp [submitCount, isSubmitCall]
            | ok hsh =>
              dsimp only
              rw [hsub]
              simp [submitCount, isSubmitCall]
  · intro tx req e hsel hid hsim hsub
    constructor
    · simp [processTxQueue, getNextPendingTransaction, hsel, hid, hsim, hsub]
    · simp [processTxQueue, getNextPendingTransaction, hsel, hid, hsim, hsub,
        submitCount, isSubmitCall]

/-- C5 amended witness: a failing tick on the sample queue broadcasts
exactly once and marks the row failed. -/
theorem c5_amended_single_submission_per_tick_witness :
    submitCount (processTxQueue ledgerSubmitFail false [samplePending]).actions ≤ 1 ∧
    (processTxQueue ledgerSubmitFail false [samplePending]).store =
      updateTransactionStatus [samplePending] 1 TxStatus.failed none := by
  obtain ⟨h1, _, h3⟩ := c5_amended_single_submission_per_tick ledgerSubmitFail
    false true sampleWallet [samplePending]
  exact ⟨h1, (h3 samplePending (callForTxNoId samplePending) "SubmissionError"
    rfl (by decide) rfl rfl).1⟩

/-- C6: once a wallet's `consecutiveErrors` reaches the ceiling (5), every
tick for it is a no-op — no dequeue, no submission, no state change — under
any ledger, pause flag and store, and stays so across any sequence of ticks;
`resetWallet(index)` sets the counter back to 0, after which a tick passes
the guard and dequeues again. -/
theorem c6_circuit_breaker (ws : WalletStatus)
    (h : maxConsecutiveErrors ≤ ws.consecutiveErrors) :
    (∀ (L : Ledger) (p hw : Bool) (q : Store),
      processWithWallet L p hw ws q =
        { store := q, wallet := ws, events := [], actions := [] }) ∧
    (∀ envs : List TickEnv, runWalletTicks ws envs = ws) ∧
    (∀ (wallets : List WalletStatus) (idx : Nat),
      wallets[idx]? = some ws →
      (resetWallet wallets idx)[idx]? =
        some { ws with consecutiveErrors := 0 }) ∧
    (ws.isProcessing = false → ∀ (L : Ledger) (q : Store),
      (processWithWallet L false true
        { ws with consecutiveErrors := 0 } q).actions.head? =
      some (StoreAction.dequeue (selectOldestPending q))) := by
  have hnoop : ∀ (L : Ledger) (p hw : Bool) (q : Store),
      processWithWallet L p hw ws q =
        { store := q, wallet := ws, events := [], actions := [] } := by
    intro L p hw q
    unfold processWithWallet
    rw [if_pos (Or.inr (Or.inr (Or.inr h)))]
  refine ⟨hnoop, ?_, ?_, ?_⟩
  · intro envs
    induction envs with
    | nil => rfl
    | cons e rest ih =>
      show List.foldl _ (processWithWallet e.ledger e.isPaused
        e.hasWalletClient ws e.store).wallet rest = ws
      rw [hnoop]
      exact ih
  · intro wallets
    induction wallets with
    | nil => intro idx hidx; simp at hidx
    | cons w tl ih =>
      intro idx hidx
      cases idx with
      | zero =>
        simp only [List.getElem?_cons_zero, Option.some.injEq] at hidx
        simp [resetWallet, hidx]
      | succ n =>
        simp only [List.getElem?_cons_succ] at hidx
        simpa [resetWallet] using ih n hidx
  · intro hproc L q
    unfold processWithWallet
    rw [if_neg (by
      push_neg
      refine ⟨by simp, by simp, ?_, ?_⟩
      · show ws.isProcessing ≠ true
        simp [hproc]
      · show (0 : Nat) < maxConsecutiveErrors
        decide)]
    simp only [getNextPendingTransaction]
    cases hsel : selectOldestPending q with
    | none => rfl
    | some tx =>
      by_cases hid : tx.id = 0
      · simp [hid]
      · simp only [hid, if_false]
        cases hsim : L.simulate (callForTx tx) with
        | error e => rfl
        | ok req =>
          cases hsub : L.submit req with
          | error e =>
            dsimp only
            rw [hsub]
            rfl
          | ok hsh =>
            dsimp only
            rw [hsub]
            rfl

/-- C6 witness: a wallet at 5 consecutive errors no-ops on the sample queue,
stays frozen across a sequence of ticks, and after `resetWallet` its next
tick dequeues the pending row. -/
theorem c6_circuit_breaker_witness :
    processWithWallet ledgerOk false true
      { sampleWallet with consecutiveErrors := 5 } [samplePending] =
      { store := [samplePending]
        wallet := { sampleWallet with consecutiveErrors := 5 }
        events := [], actions := [] } ∧
    runWalletTicks { sampleWallet with consecutiveErrors := 5 }
      [{ ledger := ledgerOk, isPaused := false, hasWalletClient := true,
         store := [samplePending] }] =
      { sampleWallet with consecutiveErrors := 5 } ∧
    (resetWallet [{ sampleWallet with consecutiveErrors := 5 }] 0)[0]? =
      some sampleWallet ∧
    (processWithWallet ledgerOk false true sampleWallet
      [samplePending]).actions.head? =
      some (StoreAction.dequeue (some samplePending)) := by
  obtain ⟨h1, h2, h3, h4⟩ := c6_circuit_breaker
    { sampleWallet with consecutiveErrors := 5 } (by decide)
  refine ⟨h1 ledgerOk false true [samplePending], h2 _, ?_, ?_⟩
  · exact h3 [{ sampleWallet with consecutiveErrors := 5 }] 0 rfl
  · exact h4 rfl ledgerOk [samplePending]

/-- C7: a multi-wallet tick that reaches the ledger — on success the
wallet's `totalProcessed` rises by exactly 1 and `consecutiveErrors` is set
to 0; on a failed simulate or submit `consecutiveErrors` rises by exactly 1
and `totalProcessed` is unchanged. -/
theorem c7_wallet_counters (L : Ledger) (q : Store)
    (tx : TransactionQueueItem) (ws : WalletStatus)
    (hsel : selectOldestPending q = some tx) (hid : tx.id ≠ 0)
    (hproc : ws.isProcessing = false)
    (herr : ws.consecutiveErrors < maxConsecutiveErrors) :
    (∀ req h, L.simulate (callForTx tx) = Except.ok req →
      L.submit req = Except.ok h →
      (processWithWallet L false true ws q).wallet =
        { index := ws.index, isProcessing := false
          totalProcessed := ws.totalProcessed + 1, consecutiveErrors := 0 }) ∧
    (∀ e, L.simulate (callForTx tx) = Except.error e →
      (processWithWallet L false true ws q).wallet =
        { index := ws.index, isProcessing := false
          totalProcessed := ws.totalProcessed
          consecutiveErrors := ws.consecutiveErrors + 1 }) ∧
    (∀ req e, L.simulate (callForTx tx) = Except.ok req →
      L.submit req = Except.error e →
      (processWithWallet L false true ws q).wallet =
        { index := ws.index, isProcessing := false
          totalProcessed := ws.totalProcessed
          consecutiveErrors := ws.consecutiveErrors + 1 }) := by
  have hguard : ¬(false = true ∨ ¬(true = true) ∨ ws.isProcessing = true ∨
      maxConsecutiveErrors ≤ ws.consecutiveErrors) := by
    push_neg
    exact ⟨by simp, by simp, by simp [hproc], by omega⟩
  refine ⟨?_, ?_, ?_⟩
  · intro req h hsim hsub
    unfold processWithWallet
    rw [if_neg hguard]
    simp [getNextPendingTransaction, hsel, hid, hsim, hsub]
  · intro e hsim
    unfold processWithWallet
    rw [if_neg hguard]
    simp [getNextPendingTransaction, hsel, hid, hsim]
  · intro req e hsim hsub
    unfold processWithWallet
    rw [if_neg hguard]
    simp [getNextPendingTransaction, hsel, hid, hsim, hsub]

/-- C7 witness: on the sample queue, a successful tick takes the fresh
wallet to `totalProcessed = 1, consecutiveErrors = 0`; a failing tick takes
it to `totalProcessed = 0, consecutiveErrors = 1`. -/
theorem c7_wallet_counters_witness :
    (processWithWallet ledgerOk false true sampleWallet [samplePending]).wallet =
      { index := 0, isProcessing := false
        totalProcessed := 1, consecutiveErrors := 0 } ∧
    (processWithWallet ledgerSubmitFail false true sampleWallet
      [samplePending]).wallet =
      { index := 0, isProcessing := false
        totalProcessed := 0, consecutiveErrors := 1 } := by
  constructor
  · exact (c7_wallet_counters ledgerOk [samplePending] samplePending
      sampleWallet rfl (by decide) rfl (by decide)).1
      (callForTx samplePending) "0xabc" rfl rfl
  · exact (c7_wallet_counters ledgerSubmitFail [samplePending] samplePending
      sampleWallet rfl (by decide) rfl (by decide)).2.2
      (callForTx samplePending) "SubmissionError" rfl rfl

/-- C3: in every store reachable from an empty table by producer enqueues
and relay ticks, a row's `hash` is non-null exactly when its `status` is
`sent`: rows are enqueued pending with no hash, marking `sent` sets the
hash, and marking `failed` leaves the hash absent. -/
theorem c3_hash_iff_sent (ops : List RelayOp) (i : TransactionQueueItem)
    (hi : i ∈ runRelayOps ops) :
    (i.hash ≠ none ↔ i.status = TxStatus.sent) :=
  (queueInv_runRelayOps ops).2 i hi

/-- C3 witness: after one enqueue and one successful tick, the reachable
store holds the row sent with hash `0xabc`, and the invariant instantiates
to it. -/
theorem c3_hash_iff_sent_witness :
    (({ id := 1, atom_id := none, x := 10, y := 20, energy := 1
        status := TxStatus.sent, hash := some "0xabc", timestamp := 1000
        retries := 1, txType := some "reaction" } :
       TransactionQueueItem).hash ≠ none ↔
     ({ id := 1, atom_id := none, x := 10, y := 20, energy := 1
        status := TxStatus.sent, hash := some "0xabc", timestamp := 1000
        retries := 1, txType := some "reaction" } :
       TransactionQueueItem).status = TxStatus.sent) :=
  c3_hash_iff_sent
    [RelayOp.enqueue 10 20 1 none 1000, RelayOp.tick ledgerOk false]
    _ (by decide)

theorem mem_of_pending_mem_update {q : Store} {id : Nat} {st : TxStatus}
    {h : Option String} (hst : st ≠ TxStatus.pending)
    {d : TransactionQueueItem}
    (hd : d ∈ updateTransactionStatus q id st h)
    (hp : d.status = TxStatus.pending) : d ∈ q := by
  rcases List.mem_map.mp hd with ⟨i, hiq, hfi⟩
  by_cases hieq : i.id = id
  · rw [← hfi] at hp
    simp [hieq, applyStatusUpdate] at hp
    exact absurd hp hst
  · rw [← hfi]
    simp only [hieq, if_false]
    exact hiq

theorem processQueueLoop_dequeued_pending (L : Ledger) :
    ∀ (fuel : Nat) (q : Store) (d : TransactionQueueItem),
      d ∈ dequeuedItems (processQueueLoop L fuel q).actions →
      d ∈ q ∧ d.status = TxStatus.pending := by
  intro fuel
  induction fuel with
  | zero =>
    intro q d hd
    simp [processQueueLoop, dequeuedItems] at hd
  | succ n ih =>
    intro q d hd
    unfold processQueueLoop at hd
    revert hd
    cases hsel : selectOldestPending q with
    | none =>
      intro hd
      simp [dequeuedItems] at hd
    | some tx =>
      dsimp only
      have htxm := selectOldestPending_mem hsel
      have htxp := selectOldestPending_pending hsel
      cases hsim : L.simulate (callForTx tx) with
      | error e =>
        intro hd
        simp only [dequeuedItems] at hd
        rcases List.mem_cons.mp hd with rfl | hd
        · exact ⟨htxm, htxp⟩
        · have hrec := ih _ d hd
          exact ⟨mem_of_pending_mem_update (by decide) hrec.1 hrec.2, hrec.2⟩
      | ok req =>
        cases hsub : L.submit req with
        | error e =>
          intro hd
          dsimp only at hd
          rw [hsub] at hd
          simp only [dequeuedItems] at hd
          rcases List.mem_cons.mp hd with rfl | hd
          · exact ⟨htxm, htxp⟩
          · have hrec := ih _ d hd
            exact ⟨mem_of_pending_mem_update (by decide) hrec.1 hrec.2, hrec.2⟩
        | ok hsh =>
          intro hd
          dsimp only at hd
          rw [hsub] at hd
          simp only [dequeuedItems] at hd
          rcases List.mem_cons.mp hd with rfl | hd
          · exact ⟨htxm, htxp⟩
          · have hrec := ih _ d hd
            exact ⟨mem_of_pending_mem_update (by decide) hrec.1 hrec.2, hrec.2⟩

theorem processQueueLoop_count_le (L : Ledger) :
    ∀ (fuel : Nat) (q : Store),
      (processQueueLoop L fuel q).processedCount ≤ fuel := by
  intro fuel
  induction fuel with
  | zero => intro q; exact Nat.le_refl 0
  | succ n ih =>
    intro q
    unfold processQueueLoop
    cases hsel : selectOldestPending q with
    | none => exact Nat.zero_le _
    | some tx =>
      dsimp only
      cases hsim : L.simulate (callForTx tx) with
      | error e => exact le_trans (ih _) (Nat.le_succ n)
      | ok req =>
        cases hsub : L.submit req with
        | error e =>
          dsimp only
          rw [hsub]
          exact le_trans (ih _) (Nat.le_succ n)
        | ok hsh =>
          dsimp only
          rw [hsub]
          exact Nat.succ_le_succ (ih _)

theorem processQueueLoop_dequeued_le (L : Ledger) :
    ∀ (fuel : Nat) (q : Store),
      (dequeuedItems (processQueueLoop L fuel q).actions).length ≤ fuel := by
  intro fuel
  induction fuel with
  | zero => intro q; simp [processQueueLoop, dequeuedItems]
  | succ n ih =>
    intro q
    unfold processQueueLoop
    cases hsel : selectOldestPending q with
    | none => simp [dequeuedItems]
    | some tx =>
      dsimp only
      cases hsim : L.simulate (callForTx tx) with
      | error e =>
        simp only [dequeuedItems, List.length_cons]
        exact Nat.succ_le_succ (ih _)
      | ok req =>
        cases hsub : L.submit req with
        | error e =>
          dsimp only
          rw [hsub]
          simp only [dequeuedItems, List.length_cons]
          exact Nat.succ_le_succ (ih _)
        | ok hsh =>
          dsimp only
          rw [hsub]
          simp only [dequeuedItems, List.length_cons]
          exact Nat.succ_le_succ (ih _)

theorem processQueueLoop_count_eq_sentMarks (L : Ledger) :
    ∀ (fuel : Nat) (q : Store),
      (processQueueLoop L fuel q).processedCount =
        sentMarkCount (processQueueLoop L fuel q).actions := by
  intro fuel
  induction fuel with
  | zero => intro q; simp [processQueueLoop, sentMarkCount]
  | succ n ih =>
    intro q
    unfold processQueueLoop
    cases hsel : selectOldestPending q with
    | none => simp [sentMarkCount, isSentMark]
    | some tx =>
      dsimp only
      cases hsim : L.simulate (callForTx tx) with
      | error e =>
        simp only [sentMarkCount, List.filter, isSentMark]
        exact ih _
      | ok req =>
        cases hsub : L.submit req with
        | error e =>
          dsimp only
          rw [hsub]
          simp only [sentMarkCount, List.filter, isSentMark]
          exact ih _
        | ok hsh =>
          dsimp only
          rw [hsub]
          simp only [sentMarkCount, List.filter, isSentMark, List.length_cons]
          rw [ih _]
          rfl

theorem processQueueLoop_fifo (L : Ledger) :
    ∀ (fuel : Nat) (q : Store),
      List.Pairwise (fun a b : TransactionQueueItem => a.timestamp ≤ b.timestamp)
        (dequeuedItems (processQueueLoop L fuel q).actions) := by
  intro fuel
  induction fuel with
  | zero => intro q; simp [processQueueLoop, dequeuedItems]
  | succ n ih =>
    intro q
    unfold processQueueLoop
    cases hsel : selectOldestPending q with
    | none => simp [dequeuedItems]
    | some tx =>
      dsimp only
      have hmin := selectOldestPending_minimal hsel
      cases hsim : L.simulate (callForTx tx) with
      | error e =>
        simp only [dequeuedItems]
        refine List.Pairwise.cons ?_ (ih _)
        intro b hb
        have hrec := processQueueLoop_dequeued_pending L n _ b hb
        have hbq := mem_of_pending_mem_update (by decide) hrec.1 hrec.2
        exact hmin b hbq hrec.2
      | ok req =>
        cases hsub : L.submit req with
        | error e =>
          dsimp only
          rw [hsub]
          simp only [dequeuedItems]
          refine List.Pairwise.cons ?_ (ih _)
          intro b hb
          have hrec := processQueueLoop_dequeued_pending L n _ b hb
          have hbq := mem_of_pending_mem_update (by decide) hrec.1 hrec.2
          exact hmin b hbq hrec.2
        | ok hsh =>
          dsimp only
          rw [hsub]
          simp only [dequeuedItems]
          refine List.Pairwise.cons ?_ (ih _)
          intro b hb
          have hrec := processQueueLoop_dequeued_pending L n _ b hb
          have hbq := mem_of_pending_mem_update (by decide) hrec.1 hrec.2
          exact hmin b hbq hrec.2

/-- C8: one cron invocation drains at most `MAX_TRANSACTIONS = 20` pending
rows serially in dequeue (timestamp) order, stops early when the dequeue
returns none, counts only successfully submitted rows in `processedCount`,
then runs the 1-hour retention sweep and responds with the count and a
timestamp. -/
theorem c8_cron_entry_point (L : Ledger) (q : Store) (now : Int) :
    (processTransactionQueue L q).processedCount ≤ 20 ∧
    (dequeuedItems (processTransactionQueue L q).actions).length ≤ 20 ∧
    (processTransactionQueue L q).processedCount =
      sentMarkCount (processTransactionQueue L q).actions ∧
    (selectOldestPending q = none →
      processTransactionQueue L q =
        { processedCount := 0, store := q
          actions := [StoreAction.dequeue none] }) ∧
    List.Pairwise (fun a b : TransactionQueueItem => a.timestamp ≤ b.timestamp)
      (dequeuedItems (processTransactionQueue L q).actions) ∧
    GET L q now =
      ({ success := true
         processedTransactions := (processTransactionQueue L q).processedCount
         timestamp := now },
       cleanupOldTransactions (processTransactionQueue L q).store now 1) := by
  refine ⟨processQueueLoop_count_le L MAX_TRANSACTIONS q,
    processQueueLoop_dequeued_le L MAX_TRANSACTIONS q,
    processQueueLoop_count_eq_sentMarks L MAX_TRANSACTIONS q, ?_,
    processQueueLoop_fifo L MAX_TRANSACTIONS q, rfl⟩
  intro hsel
  unfold processTransactionQueue MAX_TRANSACTIONS processQueueLoop
  rw [hsel]

/-- C8 witness: with a succeeding ledger and the two sample pending rows,
the cron run submits both (count 2), in timestamp order, and the handler
responds with that count. -/
theorem c8_cron_entry_point_witness :
    (processTransactionQueue ledgerOk [samplePending, sampleExplosion]).processedCount ≤ 20 ∧
    (processTransactionQueue ledgerOk [samplePending, sampleExplosion]).processedCount =
      sentMarkCount
        (processTransactionQueue ledgerOk [samplePending, sampleExplosion]).actions ∧
    processTransactionQueue ledgerOk [] =
      { processedCount := 0, store := [], actions := [StoreAction.dequeue none] } := by
  obtain ⟨h1, _, h3, _, _, _⟩ :=
    c8_cron_entry_point ledgerOk [samplePending, sampleExplosion] 0
  obtain ⟨_, _, _, h4, _, _⟩ := c8_cron_entry_point ledgerOk [] 0
  exact ⟨h1, h3, h4 rfl⟩

end Breaksomnia
